import Mathlib

/-
Shallow embedding of the somanews read-side API routes:
  * src/app/api/blindspots/route.ts            (GET, "impl 1")
  * src/app/api/stories/[storyId]/route.ts     (story GET, plus the duplicated
                                                blindspot GET appended there, "impl 2")
  * src/app/api/stories/route.ts               (SUM(article_count) serving)
  * migrations/0001_initial.sql                (schema: story_coverage primary key)

Modelling conventions:
  * JS numbers (integer DB columns, thresholds, percentages) are modelled as
    exact rationals (Rat); JS float division becomes Rat division.
  * JS objects used as string-keyed maps ({ [key: string]: number }) are
    modelled as association lists in insertion order; the bias-category keys
    occurring in this system are never integer-like strings, so JS property
    enumeration order is exactly insertion order.
  * The JS Map over story ids (storiesMap) is likewise an association list in
    insertion order, keyed by story id.
  * Array.prototype.sort with comparator (a, b) => b.p - a.p is a stable
    descending sort (ECMAScript 2019+); it is modelled by a stable insertion
    sort computing the same (unique) stable descending order.
  * The successful-read path of each route is modelled; D1 error branches
    (missing binding, failed query) return early and produce no blindspot list.
-/

namespace Somanews

/-- Story columns selected by the blindspot query (stories s JOIN story_coverage sc). -/
structure StoryFields where
  id : Int
  representative_headline : String
  summary : Option String
  first_seen_date : String
  last_updated_date : String
  topic_tags : Option String
deriving DecidableEq, Repr

/-- One row of the stories JOIN story_coverage result set. -/
structure CovRow where
  story : StoryFields
  bias_classification : String
  article_count : Rat
deriving DecidableEq, Repr

/-- Per-story accumulator held in storiesMap: story fields, the coverage
object (insertion-ordered association list), and the running total. -/
structure StoryData where
  story : StoryFields
  coverage : List (String × Rat)
  total : Rat
deriving DecidableEq, Repr

/-- The BlindspotStory interface of both blindspot routes. -/
structure BlindspotStory where
  story : StoryFields
  bias_distribution : List (String × Rat)
  total_articles : Rat
  dominant_bias : String
  dominant_percentage : Rat
deriving DecidableEq, Repr

/-- JS object write "coverage[bias] = count" (impl 1, blindspots/route.ts line 99):
overwrite if the key is present (keeping its position), else append. -/
def setCov : List (String × Rat) → String → Rat → List (String × Rat)
  | [], k, v => [(k, v)]
  | (k', v') :: rest, k, v =>
    if k' = k then (k, v) :: rest else (k', v') :: setCov rest k v

/-- JS object write "coverage[bias] = (coverage[bias] || 0) + count" (impl 2,
[storyId]/route.ts line 243): accumulate if present, else append.  For a
present value v' the JS expression (v' || 0) equals v' (also when v' = 0). -/
def addCov : List (String × Rat) → String → Rat → List (String × Rat)
  | [], k, v => [(k, 0 + v)]
  | (k', v') :: rest, k, v =>
    if k' = k then (k, v' + v) :: rest else (k', v') :: addCov rest k v

/-- JS object read "coverage[bias]" as an optional value. -/
def lookupCov : List (String × Rat) → String → Option Rat
  | [], _ => none
  | (k', v') :: rest, k => if k' = k then some v' else lookupCov rest k

/-- One iteration of the row-grouping loop: find the storiesMap entry for
row.id (creating it if absent, with the first row's story fields), update its
coverage object with upd and bump its total.  Both routes share this skeleton
and differ only in upd. -/
def insertRow (upd : List (String × Rat) → String → Rat → List (String × Rat))
    (r : CovRow) : List StoryData → List StoryData
  | [] => [⟨r.story, upd [] r.bias_classification r.article_count, 0 + r.article_count⟩]
  | d :: ds =>
    if d.story.id = r.story.id then
      ⟨d.story, upd d.coverage r.bias_classification r.article_count,
        d.total + r.article_count⟩ :: ds
    else
      d :: insertRow upd r ds

/-- The "Group by story and calculate totals" loop over the JOIN result set. -/
def groupRows (upd : List (String × Rat) → String → Rat → List (String × Rat))
    (rows : List CovRow) : List StoryData :=
  rows.foldl (fun acc r => insertRow upd r acc) []

/-- One step of the dominant-bias fold: "if (count > dominantCount) ...". -/
def domStep (acc e : String × Rat) : String × Rat :=
  if e.2 > acc.2 then e else acc

/-- The dominant-bias loop of both routes, starting from
dominantBias = "" and dominantCount = 0 and iterating the coverage object
in insertion order. -/
def dominantOf (cov : List (String × Rat)) : String × Rat :=
  cov.foldl domStep ("", 0)

/-- Blindspot record built by impl 1: dominantPercentage = dominantCount / total
(unguarded division, blindspots/route.ts line 122). -/
def mkBlindspot1 (d : StoryData) : BlindspotStory :=
  ⟨d.story, d.coverage, d.total, (dominantOf d.coverage).1,
    (dominantOf d.coverage).2 / d.total⟩

/-- Blindspot record built by impl 2: the division is guarded by
"data.total > 0 ? ... : 0" ([storyId]/route.ts line 268). -/
def mkBlindspot2 (d : StoryData) : BlindspotStory :=
  ⟨d.story, d.coverage, d.total, (dominantOf d.coverage).1,
    if d.total > 0 then (dominantOf d.coverage).2 / d.total else 0⟩

/-- The "Identify blindspots" loop: skip stories with total < 3, then keep the
story when dominantPercentage >= threshold, pushing in map-iteration order. -/
def collectBlindspots (mk : StoryData → BlindspotStory) (threshold : Rat)
    (sds : List StoryData) : List BlindspotStory :=
  sds.filterMap (fun d =>
    if d.total < 3 then none
    else if threshold ≤ (mk d).dominant_percentage then some (mk d) else none)

/-- Stable insertion step for the descending sort by dominant_percentage. -/
def insertDesc (x : BlindspotStory) : List BlindspotStory → List BlindspotStory
  | [] => [x]
  | y :: ys =>
    if y.dominant_percentage ≤ x.dominant_percentage then x :: y :: ys
    else y :: insertDesc x ys

/-- blindspots.sort((a, b) => b.dominant_percentage - a.dominant_percentage):
the stable descending sort by dominant_percentage. -/
def sortByPctDesc (l : List BlindspotStory) : List BlindspotStory :=
  l.foldr insertDesc []

/-- Longest leading decimal-digit sequence as a number, none when empty
(the NaN case of parseInt). -/
def parseDigits (cs : List Char) : Option Nat :=
  let ds := cs.takeWhile Char.isDigit
  if ds.isEmpty then none
  else some (ds.foldl (fun acc c => 10 * acc + (c.toNat - 48)) 0)

/-- JS parseInt(s, 10): skip leading whitespace, optional sign, then the
longest decimal-digit sequence; NaN (none) when no digits follow. -/
def parseIntJS (s : String) : Option Int :=
  let cs := s.data.dropWhile (fun c => c = ' ' || c = '\t' || c = '\n' || c = '\r')
  match cs with
  | '-' :: rest => (parseDigits rest).map (fun n => -(n : Int))
  | '+' :: rest => (parseDigits rest).map (fun n => (n : Int))
  | _ => (parseDigits cs).map (fun n => (n : Int))

/-- JS array.slice(0, e): a NaN end index (none) coerces to 0; a negative end
index counts from the end of the array. -/
def jsSliceTo (l : List α) : Option Int → List α
  | none => []
  | some n => if 0 ≤ n then l.take n.toNat else l.take (l.length - n.natAbs)

/-- limit = parseInt(searchParams.get("limit") || "10", 10): a missing limit
query parameter falls back to the string "10". -/
def parseLimitParam (q : Option String) : Option Int :=
  parseIntJS (q.getD "10")

/-- GET /api/blindspots (blindspots/route.ts): group the JOIN rows, identify
blindspots, sort by dominant_percentage descending, slice to the limit. -/
def blindspotsGET (threshold : Rat) (limit : Option Int) (rows : List CovRow) :
    List BlindspotStory :=
  jsSliceTo (sortByPctDesc (collectBlindspots mkBlindspot1 threshold (groupRows setCov rows)))
    limit

/-- The duplicated blindspot GET appended to stories/[storyId]/route.ts:
accumulating coverage writes and a guarded division, otherwise identical. -/
def blindspotsGET2 (threshold : Rat) (limit : Option Int) (rows : List CovRow) :
    List BlindspotStory :=
  jsSliceTo (sortByPctDesc (collectBlindspots mkBlindspot2 threshold (groupRows addCov rows)))
    limit

/-! Sorting lemmas: membership, sortedness, and the stable-sort/filter
commutation used for threshold monotonicity. -/

/-- Descending sortedness by dominant_percentage. -/
def DescSorted (l : List BlindspotStory) : Prop :=
  l.Pairwise (fun a b => b.dominant_percentage ≤ a.dominant_percentage)

theorem mem_insertDesc {a x : BlindspotStory} {l : List BlindspotStory} :
    a ∈ insertDesc x l ↔ a = x ∨ a ∈ l := by
  induction l with
  | nil => simp [insertDesc]
  | cons y ys ih =>
    by_cases h : y.dominant_percentage ≤ x.dominant_percentage
    · rw [insertDesc, if_pos h]
      simp
    · rw [insertDesc, if_neg h]
      simp [ih]
      tauto

theorem mem_sortByPctDesc {a : BlindspotStory} {l : List BlindspotStory} :
    a ∈ sortByPctDesc l ↔ a ∈ l := by
  induction l with
  | nil => simp [sortByPctDesc]
  | cons x xs ih =>
    show a ∈ insertDesc x (sortByPctDesc xs) ↔ _
    rw [mem_insertDesc]
    simp [ih]

theorem descSorted_insertDesc {x : BlindspotStory} {l : List BlindspotStory}
    (hl : DescSorted l) : DescSorted (insertDesc x l) := by
  induction l with
  | nil =>
    rw [DescSorted]
    simp [insertDesc]
  | cons y ys ih =>
    rw [DescSorted, List.pairwise_cons] at hl
    by_cases h : y.dominant_percentage ≤ x.dominant_percentage
    · rw [insertDesc, if_pos h, DescSorted, List.pairwise_cons]
      constructor
      · intro a ha
        rcases List.mem_cons.mp ha with ha | ha
        · exact ha ▸ h
        · exact le_trans (hl.1 a ha) h
      · exact List.pairwise_cons.mpr hl
    · rw [insertDesc, if_neg h, DescSorted, List.pairwise_cons]
      constructor
      · intro a ha
        rcases mem_insertDesc.mp ha with ha | ha
        · exact ha ▸ le_of_lt (lt_of_not_le h)
        · exact hl.1 a ha
      · exact ih hl.2

theorem descSorted_sortByPctDesc (l : List BlindspotStory) :
    DescSorted (sortByPctDesc l) := by
  induction l with
  | nil => exact List.Pairwise.nil
  | cons x xs ih => exact descSorted_insertDesc ih

theorem insertDesc_front {x : BlindspotStory} {l : List BlindspotStory}
    (h : ∀ z ∈ l, z.dominant_percentage ≤ x.dominant_percentage) :
    insertDesc x l = x :: l := by
  cases l with
  | nil => rfl
  | cons y ys => exact if_pos (h y (List.mem_cons_self y ys))

theorem filter_insertDesc (p : BlindspotStory → Bool) {x : BlindspotStory}
    {l : List BlindspotStory} (hl : DescSorted l) :
    (insertDesc x l).filter p =
      if p x then insertDesc x (l.filter p) else l.filter p := by
  induction l with
  | nil =>
    cases hp : p x <;> simp [insertDesc, List.filter_cons, hp]
  | cons y ys ih =>
    rw [DescSorted, List.pairwise_cons] at hl
    by_cases hxy : y.dominant_percentage ≤ x.dominant_percentage
    · rw [insertDesc, if_pos hxy]
      cases hp : p x
      · simp [List.filter_cons, hp]
      · rw [List.filter_cons_of_pos hp]
        simp only [hp, if_pos]
        rw [insertDesc_front]
        intro z hz
        rw [List.mem_filter] at hz
        rcases List.mem_cons.mp hz.1 with h1 | h1
        · exact h1 ▸ hxy
        · exact le_trans (hl.1 z h1) hxy
    · rw [insertDesc, if_neg hxy]
      cases hp : p x
      · cases hpy : p y
        · rw [List.filter_cons_of_neg (by simp [hpy]),
            List.filter_cons_of_neg (by simp [hpy]), ih hl.2]
          simp [hp]
        · rw [List.filter_cons_of_pos hpy, List.filter_cons_of_pos hpy, ih hl.2]
          simp [hp]
      · cases hpy : p y
        · rw [List.filter_cons_of_neg (by simp [hpy]),
            List.filter_cons_of_neg (by simp [hpy]), ih hl.2]
          simp [hp]
        · rw [List.filter_cons_of_pos hpy, List.filter_cons_of_pos hpy, ih hl.2]
          simp only [hp, if_pos]
          rw [insertDesc, if_neg hxy]

theorem filter_sortByPctDesc (p : BlindspotStory → Bool) (l : List BlindspotStory) :
    (sortByPctDesc l).filter p = sortByPctDesc (l.filter p) := by
  induction l with
  | nil => rfl
  | cons x xs ih =>
    show (insertDesc x (sortByPctDesc xs)).filter p = _
    rw [filter_insertDesc p (descSorted_sortByPctDesc xs), ih]
    cases hp : p x
    · rw [List.filter_cons_of_neg (by simp [hp])]
      simp [hp]
    · rw [List.filter_cons_of_pos hp]
      simp only [hp, if_pos]
      rfl

/-! Leading-segment facts: the kept set at a higher threshold is a leading
segment of the kept set at a lower one, and slicing preserves that. -/

/-- l1 is a leading segment (initial run) of l2. -/
def headSeg (l1 l2 : List α) : Prop := ∃ t, l1 ++ t = l2

theorem headSeg_refl (l : List α) : headSeg l l := ⟨[], List.append_nil l⟩

theorem headSeg_take (l : List α) (n : Nat) : headSeg (l.take n) l :=
  ⟨l.drop n, List.take_append_drop n l⟩

theorem headSeg_subset {l1 l2 : List α} (h : headSeg l1 l2) : ∀ a ∈ l1, a ∈ l2 := by
  obtain ⟨t, rfl⟩ := h
  intro a ha
  exact List.mem_append_left t ha

theorem headSeg_length {l1 l2 : List α} (h : headSeg l1 l2) : l1.length ≤ l2.length := by
  obtain ⟨t, rfl⟩ := h
  simp

theorem headSeg_take_take {l : List α} {m n : Nat} (h : m ≤ n) :
    headSeg (l.take m) (l.take n) := by
  refine ⟨(l.take n).drop m, ?_⟩
  have : l.take m = (l.take n).take m := by
    rw [List.take_take, Nat.min_eq_left h]
  rw [this]
  exact List.take_append_drop m (l.take n)

theorem headSeg_take_of_headSeg {l1 l2 : List α} (h : headSeg l1 l2) (n : Nat) :
    headSeg (l1.take n) (l2.take n) := by
  obtain ⟨t, rfl⟩ := h
  rw [List.take_append_eq_append_take]
  exact ⟨t.take (n - l1.length), rfl⟩

/-- jsSliceTo maps leading segments to leading segments: for a NaN end both
slices are empty, for a non-negative end both are takes of the same length,
and for a negative end the shorter list loses at least as much. -/
theorem headSeg_jsSliceTo {l1 l2 : List α} (h : headSeg l1 l2) (lim : Option Int) :
    headSeg (jsSliceTo l1 lim) (jsSliceTo l2 lim) := by
  cases lim with
  | none => exact ⟨[], rfl⟩
  | some n =>
    by_cases hn : 0 ≤ n
    · rw [jsSliceTo, if_pos hn, jsSliceTo, if_pos hn]
      exact headSeg_take_of_headSeg h n.toNat
    · rw [jsSliceTo, if_neg hn, jsSliceTo, if_neg hn]
      obtain ⟨t, rfl⟩ := h
      have h1 : l1.length - n.natAbs ≤ l1.length := Nat.sub_le _ _
      have h2 : l1.take (l1.length - n.natAbs) = (l1 ++ t).take (l1.length - n.natAbs) := by
        rw [List.take_append_eq_append_take, Nat.sub_eq_zero_of_le h1, List.take_zero,
          List.append_nil]
      rw [h2]
      refine headSeg_take_take ?_
      have : l1.length ≤ (l1 ++ t).length := by simp
      omega

/-- Every element of a slice is an element of the sliced list. -/
theorem mem_jsSliceTo {l : List α} {lim : Option Int} {a : α}
    (h : a ∈ jsSliceTo l lim) : a ∈ l := by
  cases lim with
  | none => cases h
  | some n =>
    by_cases hn : 0 ≤ n
    · rw [jsSliceTo, if_pos hn] at h
      exact List.mem_of_mem_take h
    · rw [jsSliceTo, if_neg hn] at h
      exact List.mem_of_mem_take h

/-! Facts about the blindspot-identification loop. -/

/-- Membership in the kept set: b comes from a grouped story with total ≥ 3
whose dominant percentage clears the threshold. -/
theorem mem_collectBlindspots {mk : StoryData → BlindspotStory} {t : Rat}
    {sds : List StoryData} {b : BlindspotStory} :
    b ∈ collectBlindspots mk t sds ↔
      ∃ d ∈ sds, ¬d.total < 3 ∧ t ≤ (mk d).dominant_percentage ∧ b = mk d := by
  rw [collectBlindspots, List.mem_filterMap]
  constructor
  · rintro ⟨d, hd, hb⟩
    by_cases h3 : d.total < 3
    · rw [if_pos h3] at hb
      cases hb
    · rw [if_neg h3] at hb
      by_cases ht : t ≤ (mk d).dominant_percentage
      · rw [if_pos ht] at hb
        exact ⟨d, hd, h3, ht, (Option.some_inj.mp hb).symm⟩
      · rw [if_neg ht] at hb
        cases hb
  · rintro ⟨d, hd, h3, ht, rfl⟩
    exact ⟨d, hd, by rw [if_neg h3, if_pos ht]⟩

/-- Everything kept clears the threshold. -/
theorem collect_ge_threshold {mk : StoryData → BlindspotStory} {t : Rat}
    {sds : List StoryData} {b : BlindspotStory} (h : b ∈ collectBlindspots mk t sds) :
    t ≤ b.dominant_percentage := by
  obtain ⟨d, _, _, ht, rfl⟩ := mem_collectBlindspots.mp h
  exact ht

/-- Raising the threshold filters the kept set: the set kept at t2 is exactly
the set kept at t1 restricted to dominant percentages ≥ t2 (t1 ≤ t2), in the
same order. -/
theorem collect_filter (mk : StoryData → BlindspotStory) {t1 t2 : Rat}
    (h : t1 ≤ t2) (sds : List StoryData) :
    collectBlindspots mk t2 sds =
      (collectBlindspots mk t1 sds).filter
        (fun b => decide (t2 ≤ b.dominant_percentage)) := by
  induction sds with
  | nil => rfl
  | cons d ds ih =>
    rw [collectBlindspots, List.filterMap_cons, collectBlindspots, List.filterMap_cons]
    by_cases h3 : d.total < 3
    · rw [if_pos h3, if_pos h3]
      exact ih
    · rw [if_neg h3, if_neg h3]
      by_cases ht2 : t2 ≤ (mk d).dominant_percentage
      · have ht1 : t1 ≤ (mk d).dominant_percentage := le_trans h ht2
        rw [if_pos ht2, if_pos ht1, List.filter_cons_of_pos (by simpa using ht2)]
        exact congrArg _ ih
      · rw [if_neg ht2]
        by_cases ht1 : t1 ≤ (mk d).dominant_percentage
        · rw [if_pos ht1, List.filter_cons_of_neg (by simpa using ht2)]
          exact ih
        · rw [if_neg ht1]
          exact ih

/-- In a descending-sorted list, the elements clearing a threshold form a
leading segment. -/
theorem headSeg_filter_ge {l : List BlindspotStory} (hl : DescSorted l) (t : Rat) :
    headSeg (l.filter (fun b => decide (t ≤ b.dominant_percentage))) l := by
  induction l with
  | nil => exact headSeg_refl []
  | cons x xs ih =>
    rw [DescSorted, List.pairwise_cons] at hl
    by_cases hx : t ≤ x.dominant_percentage
    · rw [List.filter_cons_of_pos (by simpa using hx)]
      obtain ⟨u, hu⟩ := ih hl.2
      exact ⟨u, by rw [List.cons_append, hu]⟩
    · rw [List.filter_cons_of_neg (by simpa using hx)]
      have hnil : xs.filter (fun b => decide (t ≤ b.dominant_percentage)) = [] := by
        rw [List.filter_eq_nil_iff]
        intro a ha
        simp only [decide_eq_true_eq]
        intro hta
        exact hx (le_trans hta (hl.1 a ha))
      rw [hnil]
      exact ⟨x :: xs, rfl⟩

/-! Grouping invariants: the total tracked per story equals the sum of that
story's article_count values over the JOIN rows. -/

/-- Total coverage of one story over the raw JOIN rows (sum of per-bias
article counts). -/
def rowsTotal (rows : List CovRow) (sid : Int) : Rat :=
  ((rows.filter (fun r => r.story.id == sid)).map (fun r => r.article_count)).sum

/-- Combined total of all storiesMap entries for a given id. -/
def totalAt (acc : List StoryData) (sid : Int) : Rat :=
  ((acc.filter (fun d => d.story.id == sid)).map (fun d => d.total)).sum

/-- Story ids of the storiesMap entries in insertion order. -/
def idsOf (acc : List StoryData) : List Int :=
  acc.map (fun d => d.story.id)

theorem rowsTotal_cons (r : CovRow) (rows : List CovRow) (sid : Int) :
    rowsTotal (r :: rows) sid =
      (if r.story.id = sid then r.article_count else 0) + rowsTotal rows sid := by
  by_cases h : r.story.id = sid
  · rw [rowsTotal, List.filter_cons_of_pos (by simpa using h), List.map_cons,
      List.sum_cons, if_pos h, rowsTotal]
  · rw [rowsTotal, List.filter_cons_of_neg (by simpa using h), if_neg h, rowsTotal,
      zero_add]

theorem totalAt_insertRow (upd : List (String × Rat) → String → Rat → List (String × Rat))
    (r : CovRow) (acc : List StoryData) (sid : Int) :
    totalAt (insertRow upd r acc) sid =
      totalAt acc sid + (if r.story.id = sid then r.article_count else 0) := by
  induction acc with
  | nil =>
    by_cases h : r.story.id = sid
    · rw [insertRow, totalAt, List.filter_cons_of_pos (by simpa using h)]
      simp [totalAt, if_pos h]
    · rw [insertRow, totalAt, List.filter_cons_of_neg (by simpa using h)]
      simp [totalAt, if_neg h]
  | cons d ds ih =>
    by_cases hd : d.story.id = r.story.id
    · rw [insertRow, if_pos hd]
      by_cases h : d.story.id = sid
      · have hr : r.story.id = sid := hd ▸ h
        rw [totalAt, List.filter_cons_of_pos (by simpa using h), List.map_cons,
          List.sum_cons, totalAt, List.filter_cons_of_pos (by simpa using h),
          List.map_cons, List.sum_cons, if_pos hr]
        show d.total + r.article_count + _ = _
        ring
      · have hr : ¬r.story.id = sid := fun hc => h (hd.trans hc)
        rw [totalAt, List.filter_cons_of_neg (by simpa using h), totalAt,
          List.filter_cons_of_neg (by simpa using h), if_neg hr, add_zero]
    · rw [insertRow, if_neg hd]
      by_cases h : d.story.id = sid
      · rw [totalAt, List.filter_cons_of_pos (by simpa using h), List.map_cons,
          List.sum_cons, totalAt, List.filter_cons_of_pos (by simpa using h),
          List.map_cons, List.sum_cons]
        show d.total + totalAt (insertRow upd r ds) sid = _
        rw [ih, totalAt]
        ring
      · rw [totalAt, List.filter_cons_of_neg (by simpa using h), totalAt,
          List.filter_cons_of_neg (by simpa using h)]
        exact ih

theorem totalAt_groupRows (upd : List (String × Rat) → String → Rat → List (String × Rat))
    (rows : List CovRow) (sid : Int) :
    totalAt (groupRows upd rows) sid = rowsTotal rows sid := by
  have main : ∀ (rs : List CovRow) (acc : List StoryData),
      totalAt (rs.foldl (fun a r => insertRow upd r a) acc) sid =
        totalAt acc sid + rowsTotal rs sid := by
    intro rs
    induction rs with
    | nil =>
      intro acc
      rw [List.foldl_nil, rowsTotal]
      simp
    | cons r rest ih =>
      intro acc
      rw [List.foldl_cons, ih, totalAt_insertRow, rowsTotal_cons]
      ring
  rw [groupRows, main, totalAt]
  simp

theorem idsOf_cons (d : StoryData) (ds : List StoryData) :
    idsOf (d :: ds) = d.story.id :: idsOf ds := rfl

theorem idsOf_insertRow (upd : List (String × Rat) → String → Rat → List (String × Rat))
    (r : CovRow) (acc : List StoryData) :
    idsOf (insertRow upd r acc) =
      if r.story.id ∈ idsOf acc then idsOf acc else idsOf acc ++ [r.story.id] := by
  induction acc with
  | nil => simp [insertRow, idsOf]
  | cons d ds ih =>
    by_cases hd : d.story.id = r.story.id
    · rw [insertRow, if_pos hd, idsOf_cons, idsOf_cons,
        if_pos (List.mem_cons.mpr (Or.inl hd.symm))]
    · have hne : ¬r.story.id = d.story.id := fun hc => hd hc.symm
      rw [insertRow, if_neg hd, idsOf_cons, ih, idsOf_cons]
      by_cases h : r.story.id ∈ idsOf ds
      · rw [if_pos h, if_pos (List.mem_cons.mpr (Or.inr h))]
      · rw [if_neg h, if_neg (by simp [hne, h]), List.cons_append]

theorem nodup_idsOf_groupRows (upd : List (String × Rat) → String → Rat → List (String × Rat))
    (rows : List CovRow) : (idsOf (groupRows upd rows)).Nodup := by
  have main : ∀ (rs : List CovRow) (acc : List StoryData),
      (idsOf acc).Nodup → (idsOf (rs.foldl (fun a r => insertRow upd r a) acc)).Nodup := by
    intro rs
    induction rs with
    | nil => intro acc h; exact h
    | cons r rest ih =>
      intro acc h
      rw [List.foldl_cons]
      refine ih _ ?_
      rw [idsOf_insertRow]
      by_cases hmem : r.story.id ∈ idsOf acc
      · rw [if_pos hmem]; exact h
      · rw [if_neg hmem]
        simp [List.nodup_append, h, hmem]
  have : (idsOf ([] : List StoryData)).Nodup := by simp [idsOf]
  exact main rows [] this

theorem totalAt_notMem {acc : List StoryData} {sid : Int}
    (h : sid ∉ idsOf acc) : totalAt acc sid = 0 := by
  rw [totalAt, List.filter_eq_nil_iff.mpr, List.map_nil, List.sum_nil]
  intro d hd
  simp only [beq_iff_eq]
  intro hc
  exact h (hc ▸ List.mem_map_of_mem (fun d => d.story.id) hd)

/-- With duplicate-free ids, each entry's tracked total is the combined total
for its id. -/
theorem total_eq_totalAt {acc : List StoryData} {d : StoryData}
    (hnd : (idsOf acc).Nodup) (hd : d ∈ acc) : d.total = totalAt acc d.story.id := by
  induction acc with
  | nil => cases hd
  | cons x xs ih =>
    rw [idsOf_cons, List.nodup_cons] at hnd
    rcases List.mem_cons.mp hd with rfl | hd
    · have hx : totalAt xs d.story.id = 0 := totalAt_notMem hnd.1
      rw [totalAt, List.filter_cons_of_pos (by simp), List.map_cons, List.sum_cons]
      rw [totalAt] at hx
      rw [hx, add_zero]
    · have hne : ¬x.story.id = d.story.id := by
        intro hc
        exact hnd.1 (hc ▸ List.mem_map_of_mem (fun e => e.story.id) hd)
      rw [totalAt, List.filter_cons_of_neg (by simpa using hne)]
      exact ih hnd.2 hd

/-- Each grouped entry's total is exactly the story's total coverage over the
raw JOIN rows. -/
theorem groupRows_total (upd : List (String × Rat) → String → Rat → List (String × Rat))
    (rows : List CovRow) {d : StoryData} (hd : d ∈ groupRows upd rows) :
    d.total = rowsTotal rows d.story.id := by
  rw [total_eq_totalAt (nodup_idsOf_groupRows upd rows) hd, totalAt_groupRows]

/-! Primary-key machinery: story_coverage has PRIMARY KEY (story_id,
bias_classification), so the JOIN result set holds at most one row per
(story id, bias) pair.  Under that hypothesis each coverage write hits a
fresh key, making the two routes' coverage writes agree and the coverage
object's values sum to the tracked total. -/

/-- Two JOIN rows do not collide on the (story_id, bias_classification)
primary key. -/
def rowKeyDisjoint (r1 r2 : CovRow) : Prop :=
  ¬(r1.story.id = r2.story.id ∧ r1.bias_classification = r2.bias_classification)

/-- Every remaining row's bias key is absent from the coverage object of its
story's accumulator entry. -/
def freshInv (acc : List StoryData) (rows : List CovRow) : Prop :=
  ∀ r ∈ rows, ∀ d ∈ acc, d.story.id = r.story.id →
    lookupCov d.coverage r.bias_classification = none

/-- Sum of the coverage object's values. -/
def covSum (cov : List (String × Rat)) : Rat := (cov.map Prod.snd).sum

theorem lookupCov_setCov_ne (cov : List (String × Rat)) (k : String) (v : Rat)
    {k' : String} (h : ¬k' = k) : lookupCov (setCov cov k v) k' = lookupCov cov k' := by
  induction cov with
  | nil =>
    have hne : ¬k = k' := fun hc => h hc.symm
    simp [setCov, lookupCov, hne]
  | cons e rest ih =>
    by_cases he : e.1 = k
    · rw [setCov]
      rw [if_pos he, lookupCov, lookupCov]
      have : ¬k = k' := fun hc => h hc.symm
      rw [if_neg this, if_neg (he ▸ this)]
    · rw [setCov, if_neg he, lookupCov, lookupCov]
      by_cases h1 : e.1 = k'
      · rw [if_pos h1, if_pos h1]
      · rw [if_neg h1, if_neg h1, ih]

theorem lookupCov_addCov_ne (cov : List (String × Rat)) (k : String) (v : Rat)
    {k' : String} (h : ¬k' = k) : lookupCov (addCov cov k v) k' = lookupCov cov k' := by
  induction cov with
  | nil =>
    have hne : ¬k = k' := fun hc => h hc.symm
    simp [addCov, lookupCov, hne]
  | cons e rest ih =>
    by_cases he : e.1 = k
    · rw [addCov]
      rw [if_pos he, lookupCov, lookupCov]
      have : ¬k = k' := fun hc => h hc.symm
      rw [if_neg this, if_neg (he ▸ this)]
    · rw [addCov, if_neg he, lookupCov, lookupCov]
      by_cases h1 : e.1 = k'
      · rw [if_pos h1, if_pos h1]
      · rw [if_neg h1, if_neg h1, ih]

/-- On a fresh key, the overwrite of impl 1 and the accumulate of impl 2
produce the same coverage object. -/
theorem setCov_eq_addCov {cov : List (String × Rat)} {k : String} (v : Rat)
    (h : lookupCov cov k = none) : setCov cov k v = addCov cov k v := by
  induction cov with
  | nil => simp [setCov, addCov]
  | cons e rest ih =>
    rw [lookupCov] at h
    by_cases he : e.1 = k
    · rw [if_pos he] at h
      cases h
    · rw [if_neg he] at h
      rw [setCov, if_neg he, addCov, if_neg he, ih h]

/-- Writing a fresh key appends it: the coverage sum grows by the new value. -/
theorem covSum_setCov {cov : List (String × Rat)} {k : String} (v : Rat)
    (h : lookupCov cov k = none) : covSum (setCov cov k v) = covSum cov + v := by
  induction cov with
  | nil => simp [setCov, covSum]
  | cons e rest ih =>
    rw [lookupCov] at h
    by_cases he : e.1 = k
    · rw [if_pos he] at h
      cases h
    · rw [if_neg he] at h
      have hrec := ih h
      rw [setCov, if_neg he]
      simp only [covSum, List.map_cons, List.sum_cons] at hrec ⊢
      rw [hrec]
      ring

/-- Case analysis for membership after one insertRow step. -/
theorem insertRow_mem_cases
    (upd : List (String × Rat) → String → Rat → List (String × Rat))
    (r : CovRow) {acc : List StoryData} {d' : StoryData}
    (h : d' ∈ insertRow upd r acc) :
    d' ∈ acc ∨
    (∃ d ∈ acc, d.story.id = r.story.id ∧
      d' = ⟨d.story, upd d.coverage r.bias_classification r.article_count,
              d.total + r.article_count⟩) ∨
    d' = ⟨r.story, upd [] r.bias_classification r.article_count,
            0 + r.article_count⟩ := by
  induction acc with
  | nil =>
    rw [insertRow] at h
    rcases List.mem_singleton.mp h with rfl
    exact Or.inr (Or.inr rfl)
  | cons d ds ih =>
    by_cases hd : d.story.id = r.story.id
    · rw [insertRow, if_pos hd] at h
      rcases List.mem_cons.mp h with rfl | h
      · exact Or.inr (Or.inl ⟨d, List.mem_cons_self d ds, hd, rfl⟩)
      · exact Or.inl (List.mem_cons_of_mem d h)
    · rw [insertRow, if_neg hd] at h
      rcases List.mem_cons.mp h with rfl | h
      · exact Or.inl (List.mem_cons_self d' ds)
      · rcases ih h with h | ⟨e, he, hid, rfl⟩ | rfl
        · exact Or.inl (List.mem_cons_of_mem d h)
        · exact Or.inr (Or.inl ⟨e, List.mem_cons_of_mem d he, hid, rfl⟩)
        · exact Or.inr (Or.inr rfl)

/-- The fresh-key invariant survives one insertRow step, for any coverage
write that only touches the written key. -/
theorem freshInv_insertRow
    (upd : List (String × Rat) → String → Rat → List (String × Rat))
    (hupd : ∀ (cov : List (String × Rat)) (k : String) (v : Rat) (k' : String),
      ¬k' = k → lookupCov (upd cov k v) k' = lookupCov cov k')
    {r : CovRow} {rest : List CovRow} {acc : List StoryData}
    (hP : ∀ r' ∈ rest, rowKeyDisjoint r r')
    (hI : freshInv acc (r :: rest)) :
    freshInv (insertRow upd r acc) rest := by
  intro r' hr' d' hd' hid
  rcases insertRow_mem_cases upd r hd' with h | ⟨d, hdacc, hdid, rfl⟩ | rfl
  · exact hI r' (List.mem_cons_of_mem r hr') d' h hid
  · have hid' : d.story.id = r'.story.id := hid
    have hbias : ¬r'.bias_classification = r.bias_classification := by
      intro hc
      refine hP r' hr' ⟨?_, hc.symm⟩
      rw [← hdid]
      exact hid'
    have hnone : lookupCov d.coverage r'.bias_classification = none :=
      hI r' (List.mem_cons_of_mem r hr') d hdacc hid'
    show lookupCov (upd d.coverage _ _) _ = none
    rw [hupd d.coverage _ _ _ hbias]
    exact hnone
  · have hid' : r.story.id = r'.story.id := hid
    have hbias : ¬r'.bias_classification = r.bias_classification := by
      intro hc
      exact hP r' hr' ⟨hid', hc.symm⟩
    show lookupCov (upd [] _ _) _ = none
    rw [hupd [] _ _ _ hbias]
    rfl

/-- With fresh keys throughout, one grouping step is the same for both
coverage writes. -/
theorem insertRow_setCov_eq_addCov {r : CovRow} {acc : List StoryData}
    (h : ∀ d ∈ acc, d.story.id = r.story.id →
      lookupCov d.coverage r.bias_classification = none) :
    insertRow setCov r acc = insertRow addCov r acc := by
  induction acc with
  | nil =>
    rw [insertRow, insertRow]
    have : setCov [] r.bias_classification r.article_count =
        addCov [] r.bias_classification r.article_count := by
      simp [setCov, addCov]
    rw [this]
  | cons d ds ih =>
    by_cases hd : d.story.id = r.story.id
    · rw [insertRow, if_pos hd, insertRow, if_pos hd,
        setCov_eq_addCov r.article_count (h d (List.mem_cons_self d ds) hd)]
    · rw [insertRow, if_neg hd, insertRow, if_neg hd,
        ih (fun e he hid => h e (List.mem_cons_of_mem d he) hid)]

/-- Under the primary-key hypothesis the two grouping loops agree. -/
theorem groupRows_setCov_eq_addCov {rows : List CovRow}
    (hPK : rows.Pairwise rowKeyDisjoint) :
    groupRows setCov rows = groupRows addCov rows := by
  have main : ∀ (rs : List CovRow) (acc : List StoryData),
      rs.Pairwise rowKeyDisjoint → freshInv acc rs →
      rs.foldl (fun a r => insertRow setCov r a) acc =
        rs.foldl (fun a r => insertRow addCov r a) acc := by
    intro rs
    induction rs with
    | nil => intro acc _ _; rfl
    | cons r rest ih =>
      intro acc hP hI
      rw [List.pairwise_cons] at hP
      rw [List.foldl_cons, List.foldl_cons,
        insertRow_setCov_eq_addCov (fun d hd hid => hI r (List.mem_cons_self r rest) d hd hid)]
      exact ih _ hP.2 (freshInv_insertRow addCov lookupCov_addCov_ne hP.1 hI)
  exact main rows [] hPK (fun r _ d hd => absurd hd (List.not_mem_nil d))

/-- Under the primary-key hypothesis every grouped entry's coverage values sum
to its tracked total. -/
theorem groupRows_covSum {rows : List CovRow}
    (hPK : rows.Pairwise rowKeyDisjoint) :
    ∀ d ∈ groupRows setCov rows, covSum d.coverage = d.total := by
  have main : ∀ (rs : List CovRow) (acc : List StoryData),
      rs.Pairwise rowKeyDisjoint → freshInv acc rs →
      (∀ d ∈ acc, covSum d.coverage = d.total) →
      ∀ d ∈ rs.foldl (fun a r => insertRow setCov r a) acc,
        covSum d.coverage = d.total := by
    intro rs
    induction rs with
    | nil => intro acc _ _ h; exact h
    | cons r rest ih =>
      intro acc hP hI hS
      rw [List.pairwise_cons] at hP
      rw [List.foldl_cons]
      refine ih _ hP.2 (freshInv_insertRow setCov lookupCov_setCov_ne hP.1 hI) ?_
      intro d' hd'
      rcases insertRow_mem_cases setCov r hd' with h | ⟨d, hdacc, hdid, rfl⟩ | rfl
      · exact hS d' h
      · show covSum (setCov d.coverage _ _) = d.total + r.article_count
        rw [covSum_setCov r.article_count
          (hI r (List.mem_cons_self r rest) d hdacc hdid), hS d hdacc]
      · show covSum (setCov [] _ _) = 0 + r.article_count
        simp [setCov, covSum]
  exact main rows [] hPK (fun r _ d hd => absurd hd (List.not_mem_nil d))
    (fun d hd => absurd hd (List.not_mem_nil d))

/-- A list of rationals with a positive sum has a positive element. -/
theorem exists_pos_of_covSum_pos {cov : List (String × Rat)}
    (h : 0 < covSum cov) : ∃ e ∈ cov, 0 < e.2 := by
  induction cov with
  | nil => simp [covSum] at h
  | cons e rest ih =>
    rw [covSum, List.map_cons, List.sum_cons] at h
    by_cases he : 0 < e.2
    · exact ⟨e, List.mem_cons_self e rest, he⟩
    · have : 0 < covSum rest := by
        rw [covSum]
        have := not_lt.mp he
        linarith
      obtain ⟨e', he', hpos⟩ := ih this
      exact ⟨e', List.mem_cons_of_mem e he', hpos⟩

/-! The dominant-bias fold: its result is the first entry attaining the
maximal count (ties resolved by iteration order, i.e. row-read order). -/

theorem foldl_domStep_spec (l : List (String × Rat)) (acc : String × Rat) :
    (l.foldl domStep acc = acc ∧ ∀ e ∈ l, e.2 ≤ acc.2) ∨
    (∃ l1 l2, l = l1 ++ (l.foldl domStep acc) :: l2 ∧
      acc.2 < (l.foldl domStep acc).2 ∧
      (∀ e ∈ l1, e.2 < (l.foldl domStep acc).2) ∧
      (∀ e ∈ l2, e.2 ≤ (l.foldl domStep acc).2)) := by
  induction l generalizing acc with
  | nil => exact Or.inl ⟨rfl, fun e he => absurd he (List.not_mem_nil e)⟩
  | cons x xs ih =>
    rw [List.foldl_cons]
    by_cases hx : x.2 > acc.2
    · rw [domStep, if_pos hx]
      rcases ih x with ⟨heq, hall⟩ | ⟨l1, l2, heq, hlt, h1, h2⟩
      · rw [heq]
        exact Or.inr ⟨[], xs, rfl, hx, fun e he => absurd he (List.not_mem_nil e), hall⟩
      · refine Or.inr ⟨x :: l1, l2, by rw [List.cons_append, ← heq], lt_trans hx hlt, ?_, h2⟩
        intro e he
        rcases List.mem_cons.mp he with rfl | he
        · exact hlt
        · exact h1 e he
    · rw [domStep, if_neg hx]
      rcases ih acc with ⟨heq, hall⟩ | ⟨l1, l2, heq, hlt, h1, h2⟩
      · refine Or.inl ⟨heq, ?_⟩
        intro e he
        rcases List.mem_cons.mp he with rfl | he
        · exact not_lt.mp hx
        · exact hall e he
      · refine Or.inr ⟨x :: l1, l2, by rw [List.cons_append, ← heq], hlt, ?_, h2⟩
        intro e he
        rcases List.mem_cons.mp he with rfl | he
        · exact lt_of_le_of_lt (not_lt.mp hx) hlt
        · exact h1 e he

/-- When some coverage entry is positive, the dominant pair is the first
coverage entry attaining the maximal count, in insertion order. -/
theorem dominantOf_first_max {cov : List (String × Rat)}
    (h : ∃ e ∈ cov, 0 < e.2) :
    ∃ l1 l2, cov = l1 ++ (dominantOf cov) :: l2 ∧
      (∀ e ∈ l1, e.2 < (dominantOf cov).2) ∧
      (∀ e ∈ l2, e.2 ≤ (dominantOf cov).2) := by
  rcases foldl_domStep_spec cov ("", 0) with ⟨heq, hall⟩ | ⟨l1, l2, heq, _, h1, h2⟩
  · obtain ⟨e, he, hpos⟩ := h
    have := hall e he
    simp only at this
    linarith
  · exact ⟨l1, l2, heq, h1, h2⟩

/-- The dominant pair belongs to the coverage object and its count is
maximal. -/
theorem dominantOf_mem_max {cov : List (String × Rat)}
    (h : ∃ e ∈ cov, 0 < e.2) :
    dominantOf cov ∈ cov ∧ ∀ e ∈ cov, e.2 ≤ (dominantOf cov).2 := by
  obtain ⟨l1, l2, heq, h1, h2⟩ := dominantOf_first_max h
  constructor
  · have hmem : dominantOf cov ∈ l1 ++ dominantOf cov :: l2 :=
      List.mem_append_right l1 (List.mem_cons_self _ l2)
    rw [← heq] at hmem
    exact hmem
  · intro e he
    rw [heq] at he
    rcases List.mem_append.mp he with he | he
    · exact le_of_lt (h1 e he)
    · rcases List.mem_cons.mp he with rfl | he
      · exact le_refl _
      · exact h2 e he

/-- For a story that passed the minimum-articles filter the guarded division
of impl 2 takes its division branch, so both record builders agree. -/
theorem mkBlindspot2_eq_mkBlindspot1 {d : StoryData} (h3 : ¬d.total < 3) :
    mkBlindspot2 d = mkBlindspot1 d := by
  have hpos : d.total > 0 := lt_of_lt_of_le (by norm_num) (not_lt.mp h3)
  rw [mkBlindspot2, mkBlindspot1, if_pos hpos]

/-- The identification loops of the two routes agree on every grouped list,
because the guarded division differs only for totals the filter removes. -/
theorem collect2_eq_collect1 (t : Rat) (sds : List StoryData) :
    collectBlindspots mkBlindspot2 t sds = collectBlindspots mkBlindspot1 t sds := by
  rw [collectBlindspots, collectBlindspots]
  refine List.filterMap_congr ?_
  intro d _
  by_cases h3 : d.total < 3
  · rw [if_pos h3, if_pos h3]
  · rw [if_neg h3, if_neg h3, mkBlindspot2_eq_mkBlindspot1 h3]

/-! Data model of the remaining tables, for GET /api/stories/[storyId] and
the coverage round-trip invariant. -/

/-- A sources row (columns used by the read paths). -/
structure Source where
  id : Int
  name : String
  bias_classification : String
deriving DecidableEq, Repr

/-- An articles row (columns used by the read paths). -/
structure Article where
  id : Int
  source_id : Int
  url : String
  title : String
  content_snippet : Option String
  published_date : Option String
  fetched_date : String
  story_id : Option Int
deriving DecidableEq, Repr

/-- A story_coverage table row. -/
structure CoverageRow where
  story_id : Int
  bias_classification : String
  article_count : Rat
deriving DecidableEq, Repr

/-- The persistent store visible to the read routes. -/
structure DBState where
  stories : List StoryFields
  articles : List Article
  sources : List Source
  story_coverage : List CoverageRow
deriving Repr

/-- The responses GET /api/stories/[storyId] can produce on its validation
path: 400 "Invalid story ID", 404 "Story not found", or the 200 payload. -/
inductive StoryIdResponse where
  | invalidId
  | notFound
  | ok (story : StoryFields) (articles : List (Article × Source))
      (bias_distribution : List (String × Rat))
deriving DecidableEq, Repr

/-- GET /api/stories/[storyId]: parseInt the path parameter (NaN → 400 before
any database access), look up the story (no row → 404), then read the
story's articles joined with sources and its coverage rows.  The ORDER BY of
the articles query is not modelled; the claims do not concern it. -/
def storyGET (storyIdParam : String) (db : DBState) : StoryIdResponse :=
  match parseIntJS storyIdParam with
  | none => .invalidId
  | some sid =>
    match db.stories.find? (fun s => s.id == sid) with
    | none => .notFound
    | some st =>
      .ok st
        ((db.articles.filter (fun a => a.story_id == some sid)).filterMap
          (fun a => (db.sources.find? (fun s => s.id == a.source_id)).map (fun s => (a, s))))
        ((db.story_coverage.filter (fun c => c.story_id == sid)).map
          (fun c => (c.bias_classification, c.article_count)))

/-! Coverage aggregator and the round-trip invariant. -/

/-- Count one bias occurrence into a per-category tally. -/
def bumpCount : List (String × Nat) → String → List (String × Nat)
  | [], b => [(b, 1)]
  | (k, n) :: rest, b =>
    if k = b then (k, n + 1) :: rest else (k, n) :: bumpCount rest b

/-- Modelled from the spec: the Coverage Aggregator (update_story_coverage in
backend_scripts/cluster_news.py, which is part of this repository but absent
from src/).  Spec 4.4: for a story S, "group all Articles with story_id =
S.id by their owning Source's bias category, count per category"; an Article
referencing a nonexistent Source is skipped as a recoverable inconsistency
(spec 7). -/
def recomputeCoverage (articles : List Article) (sources : List Source)
    (sid : Int) : List (String × Nat) :=
  (((articles.filter (fun a => a.story_id == some sid)).filterMap
      (fun a => (sources.find? (fun s => s.id == a.source_id)).map
        (fun s => s.bias_classification)))).foldl bumpCount []

/-- The story_coverage rows the aggregator stores for one story. -/
def rowsOfCoverage (sid : Int) (cov : List (String × Nat)) : List CoverageRow :=
  cov.map (fun e => ⟨sid, e.1, (e.2 : Rat)⟩)

/-- Sum of the per-category counts. -/
def covTally (cov : List (String × Nat)) : Nat := (cov.map Prod.snd).sum

/-- total_articles as served by GET /api/stories: SUM(article_count) over the
stored story_coverage rows of one story (stories/route.ts lines 63-71). -/
def servedTotalArticles (covRows : List CoverageRow) (sid : Int) : Rat :=
  ((covRows.filter (fun c => c.story_id == sid)).map (fun c => c.article_count)).sum

theorem covTally_bumpCount (cov : List (String × Nat)) (b : String) :
    covTally (bumpCount cov b) = covTally cov + 1 := by
  induction cov with
  | nil => simp [bumpCount, covTally]
  | cons e rest ih =>
    by_cases he : e.1 = b
    · rw [bumpCount, if_pos he]
      simp only [covTally, List.map_cons, List.sum_cons]
      omega
    · rw [bumpCount, if_neg he]
      simp only [covTally, List.map_cons, List.sum_cons]
      simp only [covTally] at ih
      omega

theorem covTally_foldl_bumpCount (bs : List String) :
    ∀ acc : List (String × Nat), covTally (bs.foldl bumpCount acc) = covTally acc + bs.length := by
  induction bs with
  | nil => intro acc; simp
  | cons b rest ih =>
    intro acc
    rw [List.foldl_cons, ih, covTally_bumpCount, List.length_cons]
    omega

/-! Decidability of the primary-key side condition, for concrete witnesses. -/

instance : DecidableRel rowKeyDisjoint := fun r1 r2 =>
  inferInstanceAs (Decidable ¬(r1.story.id = r2.story.id ∧
    r1.bias_classification = r2.bias_classification))

/-! Concrete data used by witnesses and counterexamples. -/

/-- Example story (spec 8, scenario 3). -/
def sfEx : StoryFields := ⟨1, "Flooding hits Mogadishu", none, "2025-04-28", "2025-04-29", none⟩

def rowGov9 : CovRow := ⟨sfEx, "Gov/Official", 9⟩

def rowInd1 : CovRow := ⟨sfEx, "Independent Local", 1⟩

/-- JOIN rows of a story with 9 Gov/Official articles and 1 Independent
Local article. -/
def rowsEx : List CovRow := [rowGov9, rowInd1]

/-- The grouped entry produced from rowsEx. -/
def dEx : StoryData := ⟨sfEx, [("Gov/Official", 9), ("Independent Local", 1)], 10⟩

/-- The blindspot record served for rowsEx. -/
def bsEx : BlindspotStory :=
  ⟨sfEx, [("Gov/Official", 9), ("Independent Local", 1)], 10, "Gov/Official", 9 / 10⟩

/-- Example story at the exact dominance boundary 7/10. -/
def sfB : StoryFields := ⟨2, "Parliament passes new budget bill", none, "2025-04-28", "2025-04-29", none⟩

def rowsB : List CovRow := [⟨sfB, "Gov/Official", 7⟩, ⟨sfB, "Independent Local", 3⟩]

/-- The grouped entry produced from rowsB. -/
def dB : StoryData := ⟨sfB, [("Gov/Official", 7), ("Independent Local", 3)], 10⟩

/-- Story with only 2 articles (spec 8, scenario 4). -/
def sfSmall : StoryFields := ⟨3, "Minor story", none, "2025-04-28", "2025-04-29", none⟩

def rowsSmall : List CovRow := [⟨sfSmall, "Gov/Official", 2⟩]

/-- Tied-coverage story for the tie-break analysis. -/
def rowReg2 : CovRow := ⟨sfEx, "Regional", 2⟩

def rowGov2 : CovRow := ⟨sfEx, "Gov/Official", 2⟩

/-- The fixed canonical bias-category ordering named by the spec (schema
comment in migrations/0001_initial.sql). -/
def canonicalBiasOrder : List String :=
  ["Gov/Official", "Regional", "Independent Local", "Pan-African", "International", "Western"]

/-! The claims. -/

/-- Claim C1: the blindspot detector considers only stories whose total
coverage (sum of per-bias article counts over the JOIN rows) is at least 3:
a story with total coverage below 3 never appears in the GET /api/blindspots
result, whatever its dominance. -/
theorem blindspots_min_total_filter (t : Rat) (lim : Option Int) (rows : List CovRow)
    (sid : Int) (h : rowsTotal rows sid < 3) :
    ∀ b ∈ blindspotsGET t lim rows, b.story.id ≠ sid := by
  intro b hb
  have hb1 := mem_sortByPctDesc.mp (mem_jsSliceTo hb)
  obtain ⟨d, hd, h3, _, rfl⟩ := mem_collectBlindspots.mp hb1
  intro hc
  have hid : d.story.id = sid := hc
  have ht := groupRows_total setCov rows hd
  rw [hid] at ht
  exact h3 (ht ▸ h)

theorem blindspots_min_total_filter_witness :
    rowsTotal rowsSmall 3 < 3 ∧
      ∀ b ∈ blindspotsGET (7 / 10) (some 10) rowsSmall, b.story.id ≠ 3 := by
  have h : rowsTotal rowsSmall 3 < 3 := by
    norm_num +decide [rowsTotal, rowsSmall, sfSmall, List.filter_cons]
  exact ⟨h, blindspots_min_total_filter (7 / 10) (some 10) rowsSmall 3 h⟩

/-- Claim C2: the dominance threshold is an inclusive boundary.  A story that
passes the minimum-articles filter is kept by the identification loop exactly
when its dominant percentage is greater than or equal to the threshold (so an
exact tie with the threshold is kept), and everything the route returns
clears the threshold. -/
theorem blindspots_threshold_inclusive (t : Rat) (lim : Option Int)
    (rows : List CovRow) (d : StoryData) (hd : d ∈ groupRows setCov rows)
    (h3 : ¬d.total < 3) :
    (mkBlindspot1 d ∈ collectBlindspots mkBlindspot1 t (groupRows setCov rows) ↔
      t ≤ (mkBlindspot1 d).dominant_percentage)
    ∧ (∀ b ∈ blindspotsGET t lim rows, t ≤ b.dominant_percentage) := by
  constructor
  · constructor
    · intro hmem
      obtain ⟨d', _, _, ht, heq⟩ := mem_collectBlindspots.mp hmem
      rw [heq]
      exact ht
    · intro ht
      exact mem_collectBlindspots.mpr ⟨d, hd, h3, ht, rfl⟩
  · intro b hb
    exact collect_ge_threshold (mem_sortByPctDesc.mp (mem_jsSliceTo hb))

theorem blindspots_threshold_inclusive_witness :
    (dB ∈ groupRows setCov rowsB ∧ ¬dB.total < 3 ∧
      (mkBlindspot1 dB).dominant_percentage = 7 / 10) ∧
    mkBlindspot1 dB ∈ collectBlindspots mkBlindspot1 (7 / 10) (groupRows setCov rowsB) := by
  have hd : dB ∈ groupRows setCov rowsB := by
    norm_num +decide [groupRows, insertRow, setCov, rowsB, dB, sfB,
      List.foldl_cons, List.foldl_nil]
  have h3 : ¬dB.total < 3 := by norm_num [dB]
  have hpct : (mkBlindspot1 dB).dominant_percentage = 7 / 10 := by
    norm_num [mkBlindspot1, dB, dominantOf, domStep, List.foldl_cons, List.foldl_nil]
  refine ⟨⟨hd, h3, hpct⟩, ?_⟩
  refine ((blindspots_threshold_inclusive (7 / 10) (some 10) rowsB dB hd h3).1).mpr ?_
  rw [hpct]

/-- Claim C3: for a story that passes the minimum-articles filter (under the
story_coverage primary key, which rules out duplicate (story, bias) rows) the
detector's dominant pair is a coverage entry achieving the maximal article
count, dominant_bias is its category and dominant_percentage is that maximal
count divided by the total.  The concrete 9-vs-1 instance is in the witness. -/
theorem blindspots_dominant_spec (rows : List CovRow)
    (hPK : rows.Pairwise rowKeyDisjoint) (d : StoryData)
    (hd : d ∈ groupRows setCov rows) (h3 : ¬d.total < 3) :
    dominantOf d.coverage ∈ d.coverage
    ∧ (∀ e ∈ d.coverage, e.2 ≤ (dominantOf d.coverage).2)
    ∧ (mkBlindspot1 d).dominant_bias = (dominantOf d.coverage).1
    ∧ (mkBlindspot1 d).dominant_percentage = (dominantOf d.coverage).2 / d.total := by
  have hsum : covSum d.coverage = d.total := groupRows_covSum hPK d hd
  have hpos : 0 < covSum d.coverage := by
    rw [hsum]
    have := not_lt.mp h3
    linarith
  obtain ⟨hmem, hmax⟩ := dominantOf_mem_max (exists_pos_of_covSum_pos hpos)
  exact ⟨hmem, hmax, rfl, rfl⟩

theorem blindspots_dominant_spec_witness :
    (rowsEx.Pairwise rowKeyDisjoint ∧ dEx ∈ groupRows setCov rowsEx ∧ ¬dEx.total < 3) ∧
    (dominantOf dEx.coverage ∈ dEx.coverage ∧
      (∀ e ∈ dEx.coverage, e.2 ≤ (dominantOf dEx.coverage).2) ∧
      (mkBlindspot1 dEx).dominant_bias = (dominantOf dEx.coverage).1 ∧
      (mkBlindspot1 dEx).dominant_percentage = (dominantOf dEx.coverage).2 / dEx.total) ∧
    blindspotsGET (7 / 10) (some 10) rowsEx = [bsEx] := by
  have hPK : rowsEx.Pairwise rowKeyDisjoint := by decide
  have hd : dEx ∈ groupRows setCov rowsEx := by
    norm_num +decide [groupRows, insertRow, setCov, rowsEx, dEx, sfEx, rowGov9, rowInd1,
      List.foldl_cons, List.foldl_nil]
  have h3 : ¬dEx.total < 3 := by norm_num [dEx]
  refine ⟨⟨hPK, hd, h3⟩, blindspots_dominant_spec rowsEx hPK dEx hd h3, ?_⟩
  norm_num +decide [blindspotsGET, jsSliceTo, sortByPctDesc, insertDesc, collectBlindspots,
    groupRows, insertRow, setCov, mkBlindspot1, dominantOf, domStep, rowsEx, rowGov9,
    rowInd1, sfEx, bsEx, List.filterMap_cons, List.foldl_cons, List.foldr_cons]

/-- Claim C7: no division by zero.  Every grouped story entry that survives
the minimum-articles skip has a strictly positive (hence nonzero) total, so
the unguarded division of blindspots/route.ts divides by a nonzero number and
the zero-guard branch of the duplicated route is unreachable (its record
builder agrees with the unguarded one there). -/
theorem blindspots_no_div_by_zero
    (upd : List (String × Rat) → String → Rat → List (String × Rat))
    (rows : List CovRow) :
    ∀ d ∈ groupRows upd rows, ¬d.total < 3 →
      0 < d.total ∧ d.total ≠ 0 ∧ mkBlindspot2 d = mkBlindspot1 d := by
  intro d _ h3
  have hpos : 0 < d.total := lt_of_lt_of_le (by norm_num) (not_lt.mp h3)
  exact ⟨hpos, ne_of_gt hpos, mkBlindspot2_eq_mkBlindspot1 h3⟩

theorem blindspots_no_div_by_zero_witness :
    (dEx ∈ groupRows setCov rowsEx ∧ ¬dEx.total < 3) ∧
    (0 < dEx.total ∧ dEx.total ≠ 0 ∧ mkBlindspot2 dEx = mkBlindspot1 dEx) := by
  have hd : dEx ∈ groupRows setCov rowsEx := by
    norm_num +decide [groupRows, insertRow, setCov, rowsEx, dEx, sfEx, rowGov9, rowInd1,
      List.foldl_cons, List.foldl_nil]
  have h3 : ¬dEx.total < 3 := by norm_num [dEx]
  exact ⟨⟨hd, h3⟩, blindspots_no_div_by_zero setCov rowsEx dEx hd h3⟩

/-- Claim C9: on any database state whose story_coverage rows are
duplicate-free per (story_id, bias_classification) pair — what the table's
primary key guarantees — the original blindspot GET and the duplicated one
appended to the storyId route return identical blindspot lists: the overwrite
vs accumulate coverage writes agree on fresh keys, and the guarded division
only differs where the minimum-articles skip applies. -/
theorem blindspots_routes_equiv (t : Rat) (lim : Option Int) (rows : List CovRow)
    (hPK : rows.Pairwise rowKeyDisjoint) :
    blindspotsGET2 t lim rows = blindspotsGET t lim rows := by
  rw [blindspotsGET2, blindspotsGET, ← groupRows_setCov_eq_addCov hPK,
    collect2_eq_collect1]

theorem blindspots_routes_equiv_witness :
    rowsEx.Pairwise rowKeyDisjoint ∧
    blindspotsGET2 (7 / 10) (some 10) rowsEx = blindspotsGET (7 / 10) (some 10) rowsEx := by
  have hPK : rowsEx.Pairwise rowKeyDisjoint := by decide
  exact ⟨hPK, blindspots_routes_equiv (7 / 10) (some 10) rowsEx hPK⟩

/-- Claim C4, counterexample: the tie-break is NOT the fixed canonical
bias-category ordering and the output is NOT independent of the order in
which coverage rows are read.  With a story whose coverage ties at
Regional = 2 and Gov/Official = 2 (threshold 1/2 so the story is returned),
reading the Regional row first yields dominant_bias "Regional" although
"Gov/Official" ties and precedes "Regional" in the canonical ordering, and
swapping the two rows flips the answer to "Gov/Official". -/
theorem blindspots_tiebreak_counterexample :
    ((blindspotsGET (1 / 2) (some 10) [rowReg2, rowGov2]).map
        (fun b => b.dominant_bias) = ["Regional"])
    ∧ ((blindspotsGET (1 / 2) (some 10) [rowGov2, rowReg2]).map
        (fun b => b.dominant_bias) = ["Gov/Official"])
    ∧ rowReg2.article_count = rowGov2.article_count
    ∧ canonicalBiasOrder.indexOf "Gov/Official" < canonicalBiasOrder.indexOf "Regional" := by
  refine ⟨?_, ?_, rfl, by decide⟩
  · norm_num +decide [blindspotsGET, jsSliceTo, sortByPctDesc, insertDesc,
      collectBlindspots, groupRows, insertRow, setCov, mkBlindspot1, dominantOf, domStep,
      rowReg2, rowGov2, sfEx, List.filterMap_cons, List.foldl_cons, List.foldr_cons]
  · norm_num +decide [blindspotsGET, jsSliceTo, sortByPctDesc, insertDesc,
      collectBlindspots, groupRows, insertRow, setCov, mkBlindspot1, dominantOf, domStep,
      rowReg2, rowGov2, sfEx, List.filterMap_cons, List.foldl_cons, List.foldr_cons]

/-- Claim C4, amended: on a tie for the highest article count the detector
selects the category first encountered in the coverage object's insertion
order, which is the order the coverage rows were read from the database — the
dominant pair is the first coverage entry attaining the maximal count
(entries before it are strictly smaller, entries after it no larger), so the
output is deterministic only for a fixed row order. -/
theorem blindspots_tiebreak_insertion_order {cov : List (String × Rat)}
    (h : ∃ e ∈ cov, 0 < e.2) :
    ∃ l1 l2, cov = l1 ++ (dominantOf cov) :: l2 ∧
      (∀ e ∈ l1, e.2 < (dominantOf cov).2) ∧
      (∀ e ∈ l2, e.2 ≤ (dominantOf cov).2) :=
  dominantOf_first_max h

theorem blindspots_tiebreak_insertion_order_witness :
    (∃ e ∈ [("Regional", (2 : Rat)), ("Gov/Official", 2)], 0 < e.2) ∧
    (∃ l1 l2, [("Regional", (2 : Rat)), ("Gov/Official", 2)] =
        l1 ++ (dominantOf [("Regional", 2), ("Gov/Official", 2)]) :: l2 ∧
      (∀ e ∈ l1, e.2 < (dominantOf [("Regional", (2 : Rat)), ("Gov/Official", 2)]).2) ∧
      (∀ e ∈ l2, e.2 ≤ (dominantOf [("Regional", (2 : Rat)), ("Gov/Official", 2)]).2)) := by
  have h : ∃ e ∈ [("Regional", (2 : Rat)), ("Gov/Official", 2)], 0 < e.2 :=
    ⟨("Regional", 2), List.mem_cons_self _ _, by norm_num⟩
  exact ⟨h, blindspots_tiebreak_insertion_order h⟩

/-- Sliced lists stay descending-sorted. -/
theorem descSorted_jsSliceTo {l : List BlindspotStory} (hl : DescSorted l)
    (lim : Option Int) : DescSorted (jsSliceTo l lim) := by
  cases lim with
  | none => exact List.Pairwise.nil
  | some n =>
    by_cases hn : 0 ≤ n
    · rw [jsSliceTo, if_pos hn]
      exact List.Pairwise.sublist (List.take_sublist _ _) hl
    · rw [jsSliceTo, if_neg hn]
      exact List.Pairwise.sublist (List.take_sublist _ _) hl

/-- Claim C5: the blindspot result is sorted by dominant_percentage in
descending order and holds at most limit entries; a missing limit query
parameter parses to 10, bounding the default result by 10 entries. -/
theorem blindspots_sorted_limited (t : Rat) (lim : Option Int) (rows : List CovRow) :
    DescSorted (blindspotsGET t lim rows)
    ∧ (∀ n : Int, 0 ≤ n → (blindspotsGET t (some n) rows).length ≤ n.toNat)
    ∧ parseLimitParam none = some 10
    ∧ (blindspotsGET t (parseLimitParam none) rows).length ≤ 10 := by
  have hlen : ∀ n : Int, 0 ≤ n → (blindspotsGET t (some n) rows).length ≤ n.toNat := by
    intro n hn
    rw [blindspotsGET, jsSliceTo, if_pos hn]
    rw [List.length_take]
    exact Nat.min_le_left _ _
  refine ⟨descSorted_jsSliceTo (descSorted_sortByPctDesc _) lim, hlen, rfl, ?_⟩
  have h10 : parseLimitParam none = some 10 := rfl
  rw [h10]
  have := hlen 10 (by norm_num)
  simpa using this

theorem blindspots_sorted_limited_witness :
    (0 : Int) ≤ 5 ∧ (blindspotsGET (7 / 10) (some 5) rowsEx).length ≤ (5 : Int).toNat :=
  ⟨by norm_num, (blindspots_sorted_limited (7 / 10) (some 5) rowsEx).2.1 5 (by norm_num)⟩

/-- Claim C6: blindspot monotonicity.  For a fixed row set and limit, raising
the threshold from t1 to t2 ≥ t1 returns a subset of the t1 result (the t2
result is a leading segment of the t1 result, because the kept set at t2 is
the t1 kept set filtered by the sort key), and in particular never more
entries. -/
theorem blindspots_threshold_monotone (t1 t2 : Rat) (h : t1 ≤ t2)
    (lim : Option Int) (rows : List CovRow) :
    (∀ b ∈ blindspotsGET t2 lim rows, b ∈ blindspotsGET t1 lim rows)
    ∧ (blindspotsGET t2 lim rows).length ≤ (blindspotsGET t1 lim rows).length := by
  have hseg : headSeg
      (sortByPctDesc (collectBlindspots mkBlindspot1 t2 (groupRows setCov rows)))
      (sortByPctDesc (collectBlindspots mkBlindspot1 t1 (groupRows setCov rows))) := by
    rw [collect_filter mkBlindspot1 h, ← filter_sortByPctDesc]
    exact headSeg_filter_ge (descSorted_sortByPctDesc _) t2
  have hslice := headSeg_jsSliceTo hseg lim
  exact ⟨headSeg_subset hslice, headSeg_length hslice⟩

theorem blindspots_threshold_monotone_witness :
    (1 : Rat) / 2 ≤ 7 / 10 ∧
    (∀ b ∈ blindspotsGET (7 / 10) (some 10) rowsEx,
      b ∈ blindspotsGET (1 / 2) (some 10) rowsEx) := by
  have h : (1 : Rat) / 2 ≤ 7 / 10 := by norm_num
  exact ⟨h, (blindspots_threshold_monotone (1 / 2) (7 / 10) h (some 10) rowsEx).1⟩

/-- filterMap keeps the full length when the function never drops. -/
theorem length_filterMap_of_isSome {α β : Type} {f : α → Option β} {l : List α}
    (h : ∀ a ∈ l, (f a).isSome) : (l.filterMap f).length = l.length := by
  induction l with
  | nil => rfl
  | cons a rest ih =>
    cases hfa : f a with
    | none =>
      have := h a (List.mem_cons_self a rest)
      rw [hfa] at this
      cases this
    | some b =>
      simp only [List.filterMap_cons, hfa, List.length_cons]
      rw [ih (fun x hx => h x (List.mem_cons_of_mem a hx))]

/-- The served SUM over the aggregator's stored rows is the tally. -/
theorem servedTotal_rowsOfCoverage (sid : Int) (cov : List (String × Nat)) :
    servedTotalArticles (rowsOfCoverage sid cov) sid = (covTally cov : Rat) := by
  induction cov with
  | nil => simp [servedTotalArticles, rowsOfCoverage, covTally]
  | cons e rest ih =>
    simp only [rowsOfCoverage, List.map_cons] at ih ⊢
    rw [servedTotalArticles, List.filter_cons_of_pos (by simp), List.map_cons,
      List.sum_cons]
    rw [servedTotalArticles] at ih
    rw [ih]
    simp only [covTally, List.map_cons, List.sum_cons]
    push_cast
    ring

/-- Claim C8: coverage round-trip invariant.  When stored coverage is what the
aggregator computes — counting the story's articles grouped by their source's
bias classification, every such article having an existing source — the sum
of the per-bias counts equals the number of articles of that story, and the
total_articles value GET /api/stories serves (SUM of article_count over the
stored rows) agrees with that article count. -/
theorem coverage_round_trip (articles : List Article) (sources : List Source)
    (sid : Int)
    (hsrc : ∀ a ∈ articles, a.story_id = some sid →
      (sources.find? (fun s => s.id == a.source_id)).isSome) :
    covTally (recomputeCoverage articles sources sid) =
        (articles.filter (fun a => a.story_id == some sid)).length
    ∧ servedTotalArticles (rowsOfCoverage sid (recomputeCoverage articles sources sid)) sid =
        ((articles.filter (fun a => a.story_id == some sid)).length : Rat) := by
  have htally : covTally (recomputeCoverage articles sources sid) =
      (articles.filter (fun a => a.story_id == some sid)).length := by
    rw [recomputeCoverage, covTally_foldl_bumpCount]
    rw [length_filterMap_of_isSome]
    · simp [covTally]
    · intro a ha
      have hs := hsrc a (List.mem_of_mem_filter ha)
        (by simpa using (List.mem_filter.mp ha).2)
      cases hfind : sources.find? (fun s => s.id == a.source_id) with
      | none => rw [hfind] at hs; cases hs
      | some s => rfl
  refine ⟨htally, ?_⟩
  rw [servedTotal_rowsOfCoverage, htally]

theorem coverage_round_trip_witness :
    (∀ a ∈ [Article.mk 1 10 "u1" "t1" none none "2025-04-28" (some 7),
            Article.mk 2 11 "u2" "t2" none none "2025-04-28" (some 7),
            Article.mk 3 10 "u3" "t3" none none "2025-04-28" none],
      a.story_id = some 7 →
      (([Source.mk 10 "SONNA" "Gov/Official",
         Source.mk 11 "BBC News - Somalia" "Western"]).find?
        (fun s => s.id == a.source_id)).isSome) ∧
    covTally (recomputeCoverage
        [Article.mk 1 10 "u1" "t1" none none "2025-04-28" (some 7),
         Article.mk 2 11 "u2" "t2" none none "2025-04-28" (some 7),
         Article.mk 3 10 "u3" "t3" none none "2025-04-28" none]
        [Source.mk 10 "SONNA" "Gov/Official", Source.mk 11 "BBC News - Somalia" "Western"] 7) =
      (([Article.mk 1 10 "u1" "t1" none none "2025-04-28" (some 7),
         Article.mk 2 11 "u2" "t2" none none "2025-04-28" (some 7),
         Article.mk 3 10 "u3" "t3" none none "2025-04-28" none]).filter
        (fun a => a.story_id == some 7)).length := by
  have hsrc : ∀ a ∈ [Article.mk 1 10 "u1" "t1" none none "2025-04-28" (some 7),
      Article.mk 2 11 "u2" "t2" none none "2025-04-28" (some 7),
      Article.mk 3 10 "u3" "t3" none none "2025-04-28" none],
      a.story_id = some 7 →
      (([Source.mk 10 "SONNA" "Gov/Official",
         Source.mk 11 "BBC News - Somalia" "Western"]).find?
        (fun s => s.id == a.source_id)).isSome := by decide
  exact ⟨hsrc, (coverage_round_trip _ _ 7 hsrc).1⟩

/-- Claim C10: GET /api/stories/[storyId] validates before reading.  A path
parameter whose parseInt is NaN yields the 400 "Invalid story ID" response
for every database state (so no database read can influence it), and a
parsed id with no matching stories row yields the 404 "Story not found"
response, which carries no articles and no coverage. -/
theorem storyId_validation (p : String) (db : DBState) :
    (parseIntJS p = none → storyGET p db = .invalidId)
    ∧ (∀ sid : Int, parseIntJS p = some sid →
        db.stories.find? (fun s => s.id == sid) = none →
        storyGET p db = .notFound) := by
  constructor
  · intro h
    rw [storyGET, h]
  · intro sid h hf
    rw [storyGET, h]
    simp [hf]

theorem storyId_validation_witness :
    (parseIntJS "abc" = none ∧
      storyGET "abc" ⟨[sfEx], [], [], []⟩ = .invalidId) ∧
    (parseIntJS "42" = some 42 ∧
      (⟨[sfEx], [], [], []⟩ : DBState).stories.find? (fun s => s.id == 42) = none ∧
      storyGET "42" ⟨[sfEx], [], [], []⟩ = .notFound) := by
  have h1 : parseIntJS "abc" = none := rfl
  have h2 : parseIntJS "42" = some 42 := rfl
  have hf : (⟨[sfEx], [], [], []⟩ : DBState).stories.find? (fun s => s.id == 42) = none := by
    decide
  exact ⟨⟨h1, (storyId_validation "abc" ⟨[sfEx], [], [], []⟩).1 h1⟩,
    ⟨h2, hf, (storyId_validation "42" ⟨[sfEx], [], [], []⟩).2 42 h2 hf⟩⟩

end Somanews
